import Mathlib

/-!
# Verification of the recursive-descent calculator

A shallow embedding of `src/Basics/Calculator/Calculator.cpp`: a recursive
descent parser that reads an arithmetic expression (addition, subtraction,
multiplication, division, right-associative exponentiation, unary signs,
parentheses) and evaluates it while parsing, with no intermediate syntax tree.

The C++ `Parser` class holds an immutable string `expr` and a mutable cursor
`pos`.  Here `expr` is a `List Char` parameter and the mutable `pos` is passed
and returned explicitly: every helper takes the cursor value at its call site
and returns the cursor value it leaves behind, exactly mirroring the mutation
order of the C++ code.  C++ exceptions (`std::runtime_error`) are modelled with
`Except`: each throw site maps to one constructor of `EvalError` carrying the
position baked into the thrown message.

C++ `double` values are modelled as exact rationals `ℚ`; on every input the
claims exercise, IEEE double arithmetic is exact, so the model agrees with the
code there.  `std::pow` is modelled by `powQ` below.

The mutual recursion of the grammar levels is embedded with an explicit fuel
parameter (structural recursion on fuel); `EvalError.outOfFuel` is the fuel
artifact and is proven unreachable for the fuel budget `evaluate` supplies.
-/

namespace Calculator

/-- The error taxonomy of the parser.  Each constructor corresponds to one
`throw std::runtime_error(...)` site in `Calculator.cpp` and carries the data
interpolated into the thrown message (the position, and for `unexpectedToken`
also the offending character).  `outOfFuel` does not correspond to any C++
throw site: it is the artifact of the fuel-indexed embedding of the mutual
recursion, and is proven unreachable for the fuel `evaluate` supplies. -/
inductive EvalError where
  | unexpectedToken (pos : Nat) (c : Char)
  | divisionByZero (pos : Nat)
  | unmatchedParenthesis (pos : Nat)
  | expectedNumber (pos : Nat)
  | malformedNumber (pos : Nat)
  | numberConversionError (pos : Nat)
  | outOfFuel
deriving DecidableEq

instance {ε α : Type} [DecidableEq ε] [DecidableEq α] : DecidableEq (Except ε α) :=
  fun a b =>
    match a, b with
    | .ok x, .ok y =>
      if h : x = y then .isTrue (by rw [h]) else .isFalse (by simp [h])
    | .error x, .error y =>
      if h : x = y then .isTrue (by rw [h]) else .isFalse (by simp [h])
    | .ok _, .error _ => .isFalse (by simp)
    | .error _, .ok _ => .isFalse (by simp)

/-- `std::isspace` in the default C locale: space (32), and the control
characters tab, line feed, vertical tab, form feed, carriage return (9–13). -/
def isspaceChar (c : Char) : Bool :=
  c.toNat = 32 || (9 ≤ c.toNat && c.toNat ≤ 13)

/-- `std::isdigit`: the characters `'0'`–`'9'` (codes 48–57). -/
def isdigitChar (c : Char) : Bool :=
  48 ≤ c.toNat && c.toNat ≤ 57

/-- The `while` loop of `Parser::skipWhitespace`, with an explicit iteration
budget `k`; each iteration advances `pos` by one, so the wrapper's budget
`e.length - pos` is never exhausted before the loop condition fails. -/
def skipWhitespaceGo (e : List Char) : Nat → Nat → Nat
  | 0, pos => pos
  | k + 1, pos =>
    if h : pos < e.length then
      if isspaceChar e[pos] then skipWhitespaceGo e k (pos + 1) else pos
    else pos

/-- `Parser::skipWhitespace`: advance `pos` while it is in range and
`std::isspace` accepts the current character. -/
def skipWhitespace (e : List Char) (pos : Nat) : Nat :=
  skipWhitespaceGo e (e.length - pos) pos

/-- `Parser::currentChar`: the character at the cursor, or `'\0'` at or past
the end of the input. -/
def currentChar (e : List Char) (pos : Nat) : Char :=
  if h : pos < e.length then e[pos] else Char.ofNat 0

/-- `Parser::match` (named `matchChar` because `match` is reserved in Lean):
skip whitespace, then if the character at the cursor equals `expected`,
consume it and report `true`; otherwise report `false`.  Returns the reported
`Bool` together with the cursor position the call leaves behind. -/
def matchChar (e : List Char) (expected : Char) (pos : Nat) : Bool × Nat :=
  let p := skipWhitespace e pos
  if h : p < e.length then
    if e[p] = expected then (true, p + 1) else (false, p)
  else (false, p)

/-- The `while` loop of `Parser::parseNumber`, with an explicit iteration
budget `k` (the wrapper's `e.length - pos` again suffices): advance over
digits and decimal points, throwing `malformedNumber` at the second decimal
point; `seen` is the loop's `decimalPointSeen` flag. -/
def parseNumberGo (e : List Char) : Nat → Nat → Bool → Except EvalError Nat
  | 0, pos, _ => .ok pos
  | k + 1, pos, seen =>
    if h : pos < e.length then
      let c := e[pos]
      if isdigitChar c || c = '.' then
        if c = '.' then
          if seen then .error (.malformedNumber pos)
          else parseNumberGo e k (pos + 1) true
        else parseNumberGo e k (pos + 1) seen
      else .ok pos
    else .ok pos

/-- The scanning loop of `Parser::parseNumber`, starting with
`decimalPointSeen = false`. -/
def parseNumberLoop (e : List Char) (pos : Nat) : Except EvalError Nat :=
  parseNumberGo e (e.length - pos) pos false

/-- Value of a digit string read in base 10 (the integral or fractional digit
block of the literal handed to `std::stod`). -/
def digitsToNat (l : List Char) : Nat :=
  l.foldl (fun n c => 10 * n + (c.toNat - 48)) 0

/-- Model of `std::stod` restricted to the strings `Parser::parseNumber` can
pass it: digit characters containing at most one `'.'`.  `std::stod` requires
at least one digit, so on `"."` (and `""`) it throws `std::invalid_argument`,
modelled by `none`; otherwise the value is the integral digit block plus the
fractional digit block scaled by its length.  The value is exact over `ℚ`;
double overflow (`std::out_of_range`, reachable only with literals of several
hundred digits) is outside this model. -/
def stod (s : List Char) : Option ℚ :=
  if s.any (fun c => isdigitChar c) then
    some ((digitsToNat (s.takeWhile (fun c => c ≠ '.')) : ℚ) +
      (digitsToNat ((s.dropWhile (fun c => c ≠ '.')).drop 1) : ℚ) /
        (10 : ℚ) ^ ((s.dropWhile (fun c => c ≠ '.')).drop 1).length)
  else none

/-- Model of `std::pow` on exact rationals: for an integer exponent this is
the exact integer power (`zpow`), which is what IEEE `pow` returns on every
input the claims exercise.  A non-integer exponent yields an irrational or NaN
double with no rational counterpart, and `pow(0, negative)` yields infinity;
in those cases the model returns junk (`0 ^ (-1 : ℤ) = 0` under `zpow`, and
`0` for non-integer exponents) — no claim under study evaluates them. -/
def powQ (b ex : ℚ) : ℚ :=
  if ex.den = 1 then b ^ ex.num else 0

/-- `Parser::parseNumber`: skip whitespace, scan digits/decimal point from
`start`, require at least one scanned character (`expectedNumber` otherwise),
then convert the scanned substring (`expr.substr(start, pos - start)`) with
`std::stod`, reporting `numberConversionError` at `start` if conversion
throws. -/
def parseNumber (e : List Char) (pos : Nat) : Except EvalError (ℚ × Nat) :=
  let start := skipWhitespace e pos
  match parseNumberLoop e start with
  | .error err => .error err
  | .ok stop =>
    if start = stop then .error (.expectedNumber stop)
    else
      match stod ((e.drop start).take (stop - start)) with
      | none => .error (.numberConversionError start)
      | some q => .ok (q, stop)

mutual

/-- `Parser::parseExpression`: evaluate a term, then run the addition /
subtraction accumulation loop. -/
def parseExpression (e : List Char) : Nat → Nat → Except EvalError (ℚ × Nat)
  | 0, _ => .error .outOfFuel
  | f + 1, pos =>
    match parseTerm e f pos with
    | .error err => .error err
    | .ok (value, p) => parseExpressionLoop e f value p
  termination_by structural f => f

/-- The `while (true)` loop of `Parser::parseExpression`: skip whitespace;
on `match('+')` add the next term, on `match('-')` subtract it, otherwise
stop, returning the accumulated value and the cursor the failed matches left
behind. -/
def parseExpressionLoop (e : List Char) : Nat → ℚ → Nat → Except EvalError (ℚ × Nat)
  | 0, _, _ => .error .outOfFuel
  | f + 1, value, pos =>
    let p0 := skipWhitespace e pos
    match matchChar e '+' p0 with
    | (true, p1) =>
      match parseTerm e f p1 with
      | .error err => .error err
      | .ok (rhs, p2) => parseExpressionLoop e f (value + rhs) p2
    | (false, p1) =>
      match matchChar e '-' p1 with
      | (true, p2) =>
        match parseTerm e f p2 with
        | .error err => .error err
        | .ok (rhs, p3) => parseExpressionLoop e f (value - rhs) p3
      | (false, p2) => .ok (value, p2)
  termination_by structural f => f

/-- `Parser::parseTerm`: evaluate an exponent expression, then run the
multiplication / division accumulation loop. -/
def parseTerm (e : List Char) : Nat → Nat → Except EvalError (ℚ × Nat)
  | 0, _ => .error .outOfFuel
  | f + 1, pos =>
    match parseExponent e f pos with
    | .error err => .error err
    | .ok (value, p) => parseTermLoop e f value p
  termination_by structural f => f

/-- The `while (true)` loop of `Parser::parseTerm`: skip whitespace; on
`match('*')` multiply by the next exponent expression; on `match('/')`
evaluate the next exponent expression and, if it is exactly `0`, throw
`divisionByZero` at the cursor position the divisor's parse left behind,
else divide; otherwise stop. -/
def parseTermLoop (e : List Char) : Nat → ℚ → Nat → Except EvalError (ℚ × Nat)
  | 0, _, _ => .error .outOfFuel
  | f + 1, value, pos =>
    let p0 := skipWhitespace e pos
    match matchChar e '*' p0 with
    | (true, p1) =>
      match parseExponent e f p1 with
      | .error err => .error err
      | .ok (rhs, p2) => parseTermLoop e f (value * rhs) p2
    | (false, p1) =>
      match matchChar e '/' p1 with
      | (true, p2) =>
        match parseExponent e f p2 with
        | .error err => .error err
        | .ok (rhs, p3) =>
          if rhs = 0 then .error (.divisionByZero p3)
          else parseTermLoop e f (value / rhs) p3
      | (false, p2) => .ok (value, p2)
  termination_by structural f => f

/-- `Parser::parseExponent`: evaluate a primary as the base; skip whitespace;
if `match('^')` succeeds, recursively evaluate a whole exponent expression
(right-associativity) and return `pow(base, exponent)`, else return the
base. -/
def parseExponent (e : List Char) : Nat → Nat → Except EvalError (ℚ × Nat)
  | 0, _ => .error .outOfFuel
  | f + 1, pos =>
    match parsePrimary e f pos with
    | .error err => .error err
    | .ok (base, p0) =>
      let p1 := skipWhitespace e p0
      match matchChar e '^' p1 with
      | (true, p2) =>
        match parseExponent e f p2 with
        | .error err => .error err
        | .ok (exponent, p3) => .ok (powQ base exponent, p3)
      | (false, p2) => .ok (base, p2)
  termination_by structural f => f

/-- `Parser::parsePrimary`: skip whitespace; on `match('+')` return a
recursively parsed primary unchanged; on `match('-')` return its negation; on
`match('(')` parse a full sub-expression and require `match(')')`, throwing
`unmatchedParenthesis` at the current position if it fails; otherwise delegate
to `parseNumber`. -/
def parsePrimary (e : List Char) : Nat → Nat → Except EvalError (ℚ × Nat)
  | 0, _ => .error .outOfFuel
  | f + 1, pos =>
    let p0 := skipWhitespace e pos
    match matchChar e '+' p0 with
    | (true, p1) => parsePrimary e f p1
    | (false, p1) =>
      match matchChar e '-' p1 with
      | (true, p2) =>
        match parsePrimary e f p2 with
        | .error err => .error err
        | .ok (v, p3) => .ok (-v, p3)
      | (false, p2) =>
        match matchChar e '(' p2 with
        | (true, p3) =>
          match parseExpression e f p3 with
          | .error err => .error err
          | .ok (v, p4) =>
            let p5 := skipWhitespace e p4
            match matchChar e ')' p5 with
            | (true, p6) => .ok (v, p6)
            | (false, p6) => .error (.unmatchedParenthesis p6)
        | (false, p3) => parseNumber e p3
  termination_by structural f => f

end

/-- `Parser::parse`: run `parseExpression` from position 0, skip trailing
whitespace, and require the cursor to be at end-of-input, throwing
`unexpectedToken` with the offending position and character otherwise. -/
def parse (e : List Char) (fuel : Nat) : Except EvalError ℚ :=
  match parseExpression e fuel 0 with
  | .error err => .error err
  | .ok (result, p) =>
    let p1 := skipWhitespace e p
    if p1 ≠ e.length then .error (.unexpectedToken p1 (currentChar e p1))
    else .ok result

/-- Fuel sufficient for an input of length `n`; proven adequate below
(`parse_ne_outOfFuel`). -/
def fuelBound (n : Nat) : Nat := 5 * n + 5

/-- The public operation (`evaluate` in the spec): construct a fresh parser
over the input and run `Parser::parse`. -/
def evaluate (s : String) : Except EvalError ℚ :=
  parse s.toList (fuelBound s.toList.length)

/-- The value of a digit character, as the rational `std::stod` produces for
the one-character literal. -/
def digitVal (c : Char) : ℚ := ((c.toNat - 48 : ℕ) : ℚ)

end Calculator

namespace Calculator

/-! ## Character facts used throughout -/

lemma toNat_c0 : '0'.toNat = 48 := by decide

lemma toNat_c1 : '1'.toNat = 49 := by decide

lemma toNat_c2 : '2'.toNat = 50 := by decide

lemma toNat_c3 : '3'.toNat = 51 := by decide

lemma toNat_c4 : '4'.toNat = 52 := by decide

lemma toNat_c5 : '5'.toNat = 53 := by decide

lemma toNat_c6 : '6'.toNat = 54 := by decide

lemma toNat_c7 : '7'.toNat = 55 := by decide

lemma toNat_c8 : '8'.toNat = 56 := by decide

lemma toNat_c9 : '9'.toNat = 57 := by decide

/-- A digit character is not whitespace. -/
lemma digit_not_space {c : Char} (h : isdigitChar c = true) : isspaceChar c = false := by
  simp only [isdigitChar, Bool.and_eq_true, decide_eq_true_eq] at h
  simp only [isspaceChar, Bool.or_eq_true, Bool.and_eq_true, decide_eq_true_eq,
    Bool.or_eq_false_iff, Bool.and_eq_false_iff, decide_eq_false_iff_not]
  omega

lemma digit_ne_plus {c : Char} (h : isdigitChar c = true) : c ≠ '+' := by
  intro h'; subst h'; revert h; decide

lemma digit_ne_minus {c : Char} (h : isdigitChar c = true) : c ≠ '-' := by
  intro h'; subst h'; revert h; decide

lemma digit_ne_lparen {c : Char} (h : isdigitChar c = true) : c ≠ '(' := by
  intro h'; subst h'; revert h; decide

lemma digit_ne_dot {c : Char} (h : isdigitChar c = true) : c ≠ '.' := by
  intro h'; subst h'; revert h; decide

lemma digit_ne_caret {c : Char} (h : isdigitChar c = true) : c ≠ '^' := by
  intro h'; subst h'; revert h; decide

/-! ## Whitespace-skipping: loop facts -/

lemma skipWhitespaceGo_le (e : List Char) (k : Nat) :
    ∀ pos, pos ≤ skipWhitespaceGo e k pos := by
  induction k with
  | zero => intro pos; simp [skipWhitespaceGo]
  | succ k ih =>
    intro pos
    rw [skipWhitespaceGo]
    split
    · split
      · exact le_trans (Nat.le_succ pos) (ih (pos + 1))
      · exact le_refl pos
    · exact le_refl pos

lemma skipWhitespaceGo_le_length (e : List Char) (k : Nat) :
    ∀ pos, pos ≤ e.length → skipWhitespaceGo e k pos ≤ e.length := by
  induction k with
  | zero => intro pos h; simpa [skipWhitespaceGo] using h
  | succ k ih =>
    intro pos h
    rw [skipWhitespaceGo]
    split
    · split
      · exact ih (pos + 1) (by omega)
      · exact h
    · exact h

lemma skipWhitespace_le (e : List Char) (pos : Nat) : pos ≤ skipWhitespace e pos :=
  skipWhitespaceGo_le e _ pos

lemma skipWhitespace_le_length (e : List Char) (pos : Nat) (h : pos ≤ e.length) :
    skipWhitespace e pos ≤ e.length :=
  skipWhitespaceGo_le_length e _ pos h

/-- The loop exits immediately when the current character is absent or not
whitespace. -/
lemma skipWhitespace_of_stop {e : List Char} {pos : Nat}
    (h : ∀ hl : pos < e.length, isspaceChar e[pos] = false) :
    skipWhitespace e pos = pos := by
  rw [skipWhitespace]
  rcases k : e.length - pos with _ | k
  · simp [skipWhitespaceGo]
  · rw [skipWhitespaceGo]
    split
    · next hl => simp [h hl]
    · rfl

/-- The loop advances over a whitespace character. -/
lemma skipWhitespace_of_space {e : List Char} {pos : Nat}
    (hl : pos < e.length) (hs : isspaceChar e[pos] = true) :
    skipWhitespace e pos = skipWhitespace e (pos + 1) := by
  rw [skipWhitespace, skipWhitespace]
  have hk : e.length - pos = (e.length - (pos + 1)) + 1 := by omega
  rw [hk, skipWhitespaceGo]
  simp [hl, hs]

/-- The character the loop stops at (if any) is not whitespace. -/
lemma skipWhitespaceGo_stop (e : List Char) (k : Nat) :
    ∀ pos, e.length - pos ≤ k →
      ∀ hl : skipWhitespaceGo e k pos < e.length,
        isspaceChar e[skipWhitespaceGo e k pos] = false := by
  induction k with
  | zero =>
    intro pos hk hl
    simp only [skipWhitespaceGo] at hl ⊢
    omega
  | succ k ih =>
    intro pos hk
    rw [skipWhitespaceGo]
    split
    · next hp =>
      split
      · next hs => exact ih (pos + 1) (by omega)
      · next hs => intro hl; simpa using hs
    · next hp => intro hl; omega

/-- The character `skipWhitespace` stops at (if any) is not whitespace. -/
lemma skipWhitespace_stop (e : List Char) (pos : Nat) :
    ∀ hl : skipWhitespace e pos < e.length,
      isspaceChar e[skipWhitespace e pos] = false :=
  skipWhitespaceGo_stop e _ pos (le_refl _)

/-- Skipping whitespace is idempotent. -/
lemma skipWhitespace_idem (e : List Char) (pos : Nat) :
    skipWhitespace e (skipWhitespace e pos) = skipWhitespace e pos :=
  skipWhitespace_of_stop (skipWhitespace_stop e pos)

end Calculator

namespace Calculator

/-! ## match: result characterizations and bounds -/

/-- A successful `match` consumed exactly one character past the skipped
whitespace, so it strictly advances the cursor and stays in range. -/
lemma matchChar_true {e : List Char} {c : Char} {pos p' : Nat}
    (h : matchChar e c pos = (true, p')) :
    pos < p' ∧ p' ≤ e.length ∧ p' = skipWhitespace e pos + 1 := by
  rw [matchChar] at h
  split at h
  · split at h
    · next hl _ =>
      have h2 := congrArg Prod.snd h
      simp only at h2
      subst h2
      exact ⟨by have := skipWhitespace_le e pos; omega, by omega, rfl⟩
    · simp at h
  · simp at h

/-- A failed `match` leaves the cursor exactly where whitespace skipping put
it. -/
lemma matchChar_false {e : List Char} {c : Char} {pos p' : Nat}
    (h : matchChar e c pos = (false, p')) :
    p' = skipWhitespace e pos := by
  rw [matchChar] at h
  split at h
  · split at h
    · simp at h
    · have h2 := congrArg Prod.snd h
      simp only at h2
      exact h2.symm
  · have h2 := congrArg Prod.snd h
    simp only at h2
    exact h2.symm

/-- Any `match` keeps the cursor at or after its input position. -/
lemma matchChar_le {e : List Char} {c : Char} {pos : Nat} {r : Bool × Nat}
    (h : matchChar e c pos = r) : pos ≤ r.2 := by
  rcases r with ⟨b, p'⟩
  cases b
  · rw [matchChar_false h]; exact skipWhitespace_le e pos
  · exact le_of_lt (matchChar_true h).1

/-- Any `match` keeps an in-range cursor in range. -/
lemma matchChar_le_length {e : List Char} {c : Char} {pos : Nat} {r : Bool × Nat}
    (hle : pos ≤ e.length) (h : matchChar e c pos = r) : r.2 ≤ e.length := by
  rcases r with ⟨b, p'⟩
  cases b
  · rw [matchChar_false h]; exact skipWhitespace_le_length e pos hle
  · exact (matchChar_true h).2.1

/-- When the significant character (the one whitespace skipping stops at)
differs from the expected one, `match` reports false with the cursor at that
significant position. -/
lemma matchChar_of_ne {e : List Char} {c : Char} {pos : Nat}
    (h : ∀ hl : skipWhitespace e pos < e.length,
      e[skipWhitespace e pos] ≠ c) :
    matchChar e c pos = (false, skipWhitespace e pos) := by
  rw [matchChar]
  split
  · next hl => simp [h hl]
  · rfl

/-! ## Number scanning: bounds and error shape -/

lemma parseNumberGo_le {e : List Char} (k : Nat) :
    ∀ pos seen stop, parseNumberGo e k pos seen = .ok stop → pos ≤ stop := by
  induction k with
  | zero =>
    intro pos seen stop h
    simp only [parseNumberGo, Except.ok.injEq] at h
    omega
  | succ k ih =>
    intro pos seen stop h
    simp only [parseNumberGo] at h
    repeat split at h
    all_goals first
      | exact le_trans (Nat.le_succ pos) (ih (pos + 1) _ stop h)
      | (simp only [Except.ok.injEq] at h; omega)
      | simp at h

lemma parseNumberGo_le_length {e : List Char} (k : Nat) :
    ∀ pos seen stop, pos ≤ e.length → parseNumberGo e k pos seen = .ok stop →
      stop ≤ e.length := by
  induction k with
  | zero =>
    intro pos seen stop hle h
    simp only [parseNumberGo, Except.ok.injEq] at h
    omega
  | succ k ih =>
    intro pos seen stop hle h
    simp only [parseNumberGo] at h
    repeat split at h
    all_goals first
      | exact ih (pos + 1) _ stop (by omega) h
      | (simp only [Except.ok.injEq] at h; omega)
      | simp at h

/-- The scan loop can only fail with `malformedNumber`. -/
lemma parseNumberGo_error {e : List Char} (k : Nat) :
    ∀ pos seen err, parseNumberGo e k pos seen = .error err →
      ∃ q, err = .malformedNumber q := by
  induction k with
  | zero => intro pos seen err h; simp [parseNumberGo] at h
  | succ k ih =>
    intro pos seen err h
    simp only [parseNumberGo] at h
    repeat split at h
    all_goals first
      | exact ih (pos + 1) _ err h
      | (simp only [Except.error.injEq] at h; exact ⟨pos, h.symm⟩)
      | simp at h

/-- `parseNumber` advances the cursor and keeps it in range. -/
lemma parseNumber_bounds {e : List Char} {pos : Nat} {q : ℚ} {p' : Nat}
    (hle : pos ≤ e.length) (h : parseNumber e pos = .ok (q, p')) :
    pos ≤ p' ∧ p' ≤ e.length := by
  rw [parseNumber] at h
  split at h
  · simp at h
  · next stop hloop =>
    split at h
    · simp at h
    · split at h
      · simp at h
      · simp only [Except.ok.injEq, Prod.mk.injEq] at h
        have h1 := parseNumberGo_le _ _ _ _ hloop
        have h2 := parseNumberGo_le_length _ _ _ _
          (skipWhitespace_le_length e pos hle) hloop
        have h3 := skipWhitespace_le e pos
        omega

/-- `parseNumber` can only fail with `expectedNumber`, `malformedNumber` or
`numberConversionError` — never with the fuel artifact. -/
lemma parseNumber_error {e : List Char} {pos : Nat} {err : EvalError}
    (h : parseNumber e pos = .error err) : err ≠ .outOfFuel := by
  rw [parseNumber] at h
  split at h
  · next herr =>
    simp only [Except.error.injEq] at h
    obtain ⟨q, hq⟩ := parseNumberGo_error _ _ _ _ herr
    subst h; subst hq; simp
  · split at h
    · simp only [Except.error.injEq] at h
      subst h; simp
    · split at h
      · simp only [Except.error.injEq] at h
        subst h; simp
      · simp at h

end Calculator

namespace Calculator

/-! ## Cursor monotonicity across the grammar levels -/

/-- From an in-range cursor, a successful parse at any grammar level returns
an in-range cursor that moved only forward (the scan-cursor invariant
`0 ≤ position ≤ length` together with monotonicity). -/
lemma parseLevels_bounds (e : List Char) : ∀ f : Nat,
    (∀ pos v p', parseExpression e f pos = .ok (v, p') → pos ≤ e.length →
      pos ≤ p' ∧ p' ≤ e.length) ∧
    (∀ value pos v p', parseExpressionLoop e f value pos = .ok (v, p') →
      pos ≤ e.length → pos ≤ p' ∧ p' ≤ e.length) ∧
    (∀ pos v p', parseTerm e f pos = .ok (v, p') → pos ≤ e.length →
      pos ≤ p' ∧ p' ≤ e.length) ∧
    (∀ value pos v p', parseTermLoop e f value pos = .ok (v, p') →
      pos ≤ e.length → pos ≤ p' ∧ p' ≤ e.length) ∧
    (∀ pos v p', parseExponent e f pos = .ok (v, p') → pos ≤ e.length →
      pos ≤ p' ∧ p' ≤ e.length) ∧
    (∀ pos v p', parsePrimary e f pos = .ok (v, p') → pos ≤ e.length →
      pos ≤ p' ∧ p' ≤ e.length) := by
  intro f
  induction f with
  | zero =>
    refine ⟨?_, ?_, ?_, ?_, ?_, ?_⟩ <;> intros <;>
      simp_all [parseExpression, parseExpressionLoop, parseTerm, parseTermLoop,
        parseExponent, parsePrimary]
  | succ f ih =>
    obtain ⟨ihE, ihEL, ihT, ihTL, ihX, ihP⟩ := ih
    refine ⟨?_, ?_, ?_, ?_, ?_, ?_⟩
    -- parseExpression
    · intro pos v p' h hle
      simp only [parseExpression] at h
      split at h
      · simp at h
      · next value p heq =>
        obtain ⟨h1, h2⟩ := ihT pos value p heq hle
        obtain ⟨h3, h4⟩ := ihEL value p v p' h h2
        omega
    -- parseExpressionLoop
    · intro value pos v p' h hle
      simp only [parseExpressionLoop] at h
      have hs0 := skipWhitespace_le e pos
      have hs0l := skipWhitespace_le_length e pos hle
      split at h
      · next p1 heq1 =>
        obtain ⟨m1, m2, _⟩ := matchChar_true heq1
        split at h
        · simp at h
        · next rhs p2 heq2 =>
          obtain ⟨h1, h2⟩ := ihT p1 rhs p2 heq2 m2
          obtain ⟨h3, h4⟩ := ihEL (value + rhs) p2 v p' h h2
          omega
      · next p1 heq1 =>
        have hp1 := matchChar_false heq1
        have hs1 := skipWhitespace_le e (skipWhitespace e pos)
        have hs1l := skipWhitespace_le_length e (skipWhitespace e pos) hs0l
        split at h
        · next p2 heq2 =>
          obtain ⟨m1, m2, _⟩ := matchChar_true heq2
          split at h
          · simp at h
          · next rhs p3 heq3 =>
            obtain ⟨h1, h2⟩ := ihT p2 rhs p3 heq3 m2
            obtain ⟨h3, h4⟩ := ihEL (value - rhs) p3 v p' h h2
            omega
        · next p2 heq2 =>
          have hp2 := matchChar_false heq2
          simp only [Except.ok.injEq, Prod.mk.injEq] at h
          have hs2 := skipWhitespace_le e p1
          have hs2l := skipWhitespace_le_length e p1 (by omega)
          omega
    -- parseTerm
    · intro pos v p' h hle
      simp only [parseTerm] at h
      split at h
      · simp at h
      · next value p heq =>
        obtain ⟨h1, h2⟩ := ihX pos value p heq hle
        obtain ⟨h3, h4⟩ := ihTL value p v p' h h2
        omega
    -- parseTermLoop
    · intro value pos v p' h hle
      simp only [parseTermLoop] at h
      have hs0 := skipWhitespace_le e pos
      have hs0l := skipWhitespace_le_length e pos hle
      split at h
      · next p1 heq1 =>
        obtain ⟨m1, m2, _⟩ := matchChar_true heq1
        split at h
        · simp at h
        · next rhs p2 heq2 =>
          obtain ⟨h1, h2⟩ := ihX p1 rhs p2 heq2 m2
          obtain ⟨h3, h4⟩ := ihTL (value * rhs) p2 v p' h h2
          omega
      · next p1 heq1 =>
        have hp1 := matchChar_false heq1
        have hs1 := skipWhitespace_le e (skipWhitespace e pos)
        have hs1l := skipWhitespace_le_length e (skipWhitespace e pos) hs0l
        split at h
        · next p2 heq2 =>
          obtain ⟨m1, m2, _⟩ := matchChar_true heq2
          split at h
          · simp at h
          · next rhs p3 heq3 =>
            obtain ⟨h1, h2⟩ := ihX p2 rhs p3 heq3 m2
            split at h
            · simp at h
            · obtain ⟨h3, h4⟩ := ihTL (value / rhs) p3 v p' h h2
              omega
        · next p2 heq2 =>
          have hp2 := matchChar_false heq2
          simp only [Except.ok.injEq, Prod.mk.injEq] at h
          have hs2 := skipWhitespace_le e p1
          have hs2l := skipWhitespace_le_length e p1 (by omega)
          omega
    -- parseExponent
    · intro pos v p' h hle
      simp only [parseExponent] at h
      split at h
      · simp at h
      · next base p0 heq0 =>
        obtain ⟨h1, h2⟩ := ihP pos base p0 heq0 hle
        have hs1 := skipWhitespace_le e p0
        have hs1l := skipWhitespace_le_length e p0 h2
        split at h
        · next p2 heq2 =>
          obtain ⟨m1, m2, _⟩ := matchChar_true heq2
          split at h
          · simp at h
          · next expv p3 heq3 =>
            obtain ⟨h3, h4⟩ := ihX p2 expv p3 heq3 m2
            simp only [Except.ok.injEq, Prod.mk.injEq] at h
            omega
        · next p2 heq2 =>
          have hp2 := matchChar_false heq2
          simp only [Except.ok.injEq, Prod.mk.injEq] at h
          have hs2 := skipWhitespace_le e (skipWhitespace e p0)
          have hs2l := skipWhitespace_le_length e (skipWhitespace e p0) hs1l
          omega
    -- parsePrimary
    · intro pos v p' h hle
      simp only [parsePrimary] at h
      have hs0 := skipWhitespace_le e pos
      have hs0l := skipWhitespace_le_length e pos hle
      split at h
      · next p1 heq1 =>
        obtain ⟨m1, m2, _⟩ := matchChar_true heq1
        obtain ⟨h1, h2⟩ := ihP p1 v p' h m2
        omega
      · next p1 heq1 =>
        have hp1 := matchChar_false heq1
        have hs1 := skipWhitespace_le e (skipWhitespace e pos)
        have hs1l := skipWhitespace_le_length e (skipWhitespace e pos) hs0l
        split at h
        · next p2 heq2 =>
          obtain ⟨m1, m2, _⟩ := matchChar_true heq2
          split at h
          · simp at h
          · next v0 p3 heq3 =>
            obtain ⟨h1, h2⟩ := ihP p2 v0 p3 heq3 m2
            simp only [Except.ok.injEq, Prod.mk.injEq] at h
            omega
        · next p2 heq2 =>
          have hp2 := matchChar_false heq2
          have hs2 := skipWhitespace_le e p1
          have hs2l := skipWhitespace_le_length e p1 (by omega)
          split at h
          · next p3 heq3 =>
            obtain ⟨m1, m2, _⟩ := matchChar_true heq3
            split at h
            · simp at h
            · next v0 p4 heq4 =>
              obtain ⟨h1, h2⟩ := ihE p3 v0 p4 heq4 m2
              have hs3 := skipWhitespace_le e p4
              have hs3l := skipWhitespace_le_length e p4 h2
              split at h
              · next p6 heq6 =>
                obtain ⟨m3, m4, _⟩ := matchChar_true heq6
                simp only [Except.ok.injEq, Prod.mk.injEq] at h
                omega
              · simp at h
          · next p3 heq3 =>
            have hp3 := matchChar_false heq3
            have hs3 := skipWhitespace_le e p2
            have hs3l := skipWhitespace_le_length e p2 (by omega)
            have hb := parseNumber_bounds (by omega) h
            omega

end Calculator

namespace Calculator

/-! ## Fuel adequacy: the out-of-fuel artifact is unreachable -/

/-- With fuel at least linear in the remaining input, no grammar level runs
out of fuel: each recursive call either consumes at least one character or
moves strictly down the grammar rank, so `5·(remaining) + rank` bounds the
fuel any call consumes. -/
lemma parseLevels_noFuelError (e : List Char) : ∀ f : Nat,
    (∀ pos, pos ≤ e.length → 5 * (e.length - pos) + 4 ≤ f →
      parseExpression e f pos ≠ .error .outOfFuel) ∧
    (∀ value pos, pos ≤ e.length → 5 * (e.length - pos) + 2 ≤ f →
      parseExpressionLoop e f value pos ≠ .error .outOfFuel) ∧
    (∀ pos, pos ≤ e.length → 5 * (e.length - pos) + 3 ≤ f →
      parseTerm e f pos ≠ .error .outOfFuel) ∧
    (∀ value pos, pos ≤ e.length → 5 * (e.length - pos) + 2 ≤ f →
      parseTermLoop e f value pos ≠ .error .outOfFuel) ∧
    (∀ pos, pos ≤ e.length → 5 * (e.length - pos) + 2 ≤ f →
      parseExponent e f pos ≠ .error .outOfFuel) ∧
    (∀ pos, pos ≤ e.length → 5 * (e.length - pos) + 1 ≤ f →
      parsePrimary e f pos ≠ .error .outOfFuel) := by
  intro f
  induction f with
  | zero =>
    refine ⟨?_, ?_, ?_, ?_, ?_, ?_⟩ <;> intros <;> omega
  | succ f ih =>
    obtain ⟨ihE, ihEL, ihT, ihTL, ihX, ihP⟩ := ih
    obtain ⟨bE, bEL, bT, bTL, bX, bP⟩ := parseLevels_bounds e f
    refine ⟨?_, ?_, ?_, ?_, ?_, ?_⟩
    -- parseExpression
    · intro pos hle hf
      simp only [parseExpression]
      split
      · next err heq =>
        intro hc
        injection hc with h'
        subst h'
        exact ihT pos hle (by omega) heq
      · next value p heq =>
        obtain ⟨h1, h2⟩ := bT pos value p heq hle
        exact ihEL value p h2 (by omega)
    -- parseExpressionLoop
    · intro value pos hle hf
      simp only [parseExpressionLoop]
      have hs0 := skipWhitespace_le e pos
      have hs0l := skipWhitespace_le_length e pos hle
      split
      · next p1 heq1 =>
        obtain ⟨m1, m2, _⟩ := matchChar_true heq1
        split
        · next err heq2 =>
          intro hc
          injection hc with h'
          subst h'
          exact ihT p1 m2 (by omega) heq2
        · next rhs p2 heq2 =>
          obtain ⟨h1, h2⟩ := bT p1 rhs p2 heq2 m2
          exact ihEL (value + rhs) p2 h2 (by omega)
      · next p1 heq1 =>
        have hp1 := matchChar_false heq1
        have hs1 := skipWhitespace_le e (skipWhitespace e pos)
        have hs1l := skipWhitespace_le_length e (skipWhitespace e pos) hs0l
        split
        · next p2 heq2 =>
          obtain ⟨m1, m2, _⟩ := matchChar_true heq2
          split
          · next err heq3 =>
            intro hc
            injection hc with h'
            subst h'
            exact ihT p2 m2 (by omega) heq3
          · next rhs p3 heq3 =>
            obtain ⟨h1, h2⟩ := bT p2 rhs p3 heq3 m2
            exact ihEL (value - rhs) p3 h2 (by omega)
        · simp
    -- parseTerm
    · intro pos hle hf
      simp only [parseTerm]
      split
      · next err heq =>
        intro hc
        injection hc with h'
        subst h'
        exact ihX pos hle (by omega) heq
      · next value p heq =>
        obtain ⟨h1, h2⟩ := bX pos value p heq hle
        exact ihTL value p h2 (by omega)
    -- parseTermLoop
    · intro value pos hle hf
      simp only [parseTermLoop]
      have hs0 := skipWhitespace_le e pos
      have hs0l := skipWhitespace_le_length e pos hle
      split
      · next p1 heq1 =>
        obtain ⟨m1, m2, _⟩ := matchChar_true heq1
        split
        · next err heq2 =>
          intro hc
          injection hc with h'
          subst h'
          exact ihX p1 m2 (by omega) heq2
        · next rhs p2 heq2 =>
          obtain ⟨h1, h2⟩ := bX p1 rhs p2 heq2 m2
          exact ihTL (value * rhs) p2 h2 (by omega)
      · next p1 heq1 =>
        have hp1 := matchChar_false heq1
        have hs1 := skipWhitespace_le e (skipWhitespace e pos)
        have hs1l := skipWhitespace_le_length e (skipWhitespace e pos) hs0l
        split
        · next p2 heq2 =>
          obtain ⟨m1, m2, _⟩ := matchChar_true heq2
          split
          · next err heq3 =>
            intro hc
            injection hc with h'
            subst h'
            exact ihX p2 m2 (by omega) heq3
          · next rhs p3 heq3 =>
            obtain ⟨h1, h2⟩ := bX p2 rhs p3 heq3 m2
            split
            · simp
            · exact ihTL (value / rhs) p3 h2 (by omega)
        · simp
    -- parseExponent
    · intro pos hle hf
      simp only [parseExponent]
      split
      · next err heq =>
        intro hc
        injection hc with h'
        subst h'
        exact ihP pos hle (by omega) heq
      · next base p0 heq0 =>
        obtain ⟨h1, h2⟩ := bP pos base p0 heq0 hle
        have hs1 := skipWhitespace_le e p0
        have hs1l := skipWhitespace_le_length e p0 h2
        split
        · next p2 heq2 =>
          obtain ⟨m1, m2, _⟩ := matchChar_true heq2
          split
          · next err heq3 =>
            intro hc
            injection hc with h'
            subst h'
            exact ihX p2 m2 (by omega) heq3
          · simp
        · simp
    -- parsePrimary
    · intro pos hle hf
      simp only [parsePrimary]
      have hs0 := skipWhitespace_le e pos
      have hs0l := skipWhitespace_le_length e pos hle
      split
      · next p1 heq1 =>
        obtain ⟨m1, m2, _⟩ := matchChar_true heq1
        exact ihP p1 m2 (by omega)
      · next p1 heq1 =>
        have hp1 := matchChar_false heq1
        have hs1 := skipWhitespace_le e (skipWhitespace e pos)
        have hs1l := skipWhitespace_le_length e (skipWhitespace e pos) hs0l
        split
        · next p2 heq2 =>
          obtain ⟨m1, m2, _⟩ := matchChar_true heq2
          split
          · next err heq3 =>
            intro hc
            injection hc with h'
            subst h'
            exact ihP p2 m2 (by omega) heq3
          · simp
        · next p2 heq2 =>
          have hp2 := matchChar_false heq2
          have hs2 := skipWhitespace_le e p1
          have hs2l := skipWhitespace_le_length e p1 (by omega)
          split
          · next p3 heq3 =>
            obtain ⟨m1, m2, _⟩ := matchChar_true heq3
            split
            · next err heq4 =>
              intro hc
              injection hc with h'
              subst h'
              exact ihE p3 m2 (by omega) heq4
            · next v0 p4 heq4 =>
              split
              · simp
              · simp
          · next p3 heq3 =>
            intro hc
            exact parseNumber_error hc rfl

end Calculator

namespace Calculator

/-- With the fuel budget `evaluate` supplies, `parse` never returns the fuel
artifact. -/
lemma parse_ne_outOfFuel (e : List Char) :
    parse e (fuelBound e.length) ≠ .error .outOfFuel := by
  rw [parse]
  split
  · next err heq =>
    intro hc
    injection hc with h'
    subst h'
    exact (parseLevels_noFuelError e (fuelBound e.length)).1 0 (Nat.zero_le _)
      (by simp only [fuelBound]; omega) heq
  · next result p heq =>
    dsimp only
    split
    · simp
    · simp

/-- `evaluate` never returns the fuel artifact. -/
lemma evaluate_ne_outOfFuel (s : String) : evaluate s ≠ .error .outOfFuel :=
  parse_ne_outOfFuel s.toList

/-- C8: for every input string, `evaluate` terminates with a value or a
genuine parse error: every grammar level either consumes at least one
character before recursing or recurses strictly down the grammar rank, so the
linear fuel budget `fuelBound` is never exhausted (`outOfFuel` unreachable)
and evaluation is bounded by the input length. -/
theorem evaluate_terminates (s : String) :
    (∃ v, evaluate s = .ok v) ∨
      (∃ err, evaluate s = .error err ∧ err ≠ .outOfFuel) := by
  cases h : evaluate s with
  | ok v => exact Or.inl ⟨v, rfl⟩
  | error err =>
    refine Or.inr ⟨err, rfl, ?_⟩
    intro hc
    subst hc
    exact evaluate_ne_outOfFuel s h

/-- C9: the scan-cursor invariant.  Every primitive and every grammar level
keeps the cursor within `0 ≤ position ≤ length(source)` and moves it
monotonically forward: whitespace skipping, the `match` primitive, number
lexing, and each of the four mutually recursive grammar levels. -/
theorem cursor_invariant :
    (∀ (e : List Char) (pos : Nat), pos ≤ skipWhitespace e pos) ∧
    (∀ (e : List Char) (pos : Nat), pos ≤ e.length →
      skipWhitespace e pos ≤ e.length) ∧
    (∀ (e : List Char) (c : Char) (pos : Nat) (b : Bool) (p' : Nat),
      matchChar e c pos = (b, p') → pos ≤ e.length →
      pos ≤ p' ∧ p' ≤ e.length) ∧
    (∀ (e : List Char) (pos : Nat) (q : ℚ) (p' : Nat),
      parseNumber e pos = .ok (q, p') → pos ≤ e.length →
      pos ≤ p' ∧ p' ≤ e.length) ∧
    (∀ (e : List Char) (f pos : Nat) (v : ℚ) (p' : Nat),
      parseExpression e f pos = .ok (v, p') → pos ≤ e.length →
      pos ≤ p' ∧ p' ≤ e.length) ∧
    (∀ (e : List Char) (f pos : Nat) (v : ℚ) (p' : Nat),
      parseTerm e f pos = .ok (v, p') → pos ≤ e.length →
      pos ≤ p' ∧ p' ≤ e.length) ∧
    (∀ (e : List Char) (f pos : Nat) (v : ℚ) (p' : Nat),
      parseExponent e f pos = .ok (v, p') → pos ≤ e.length →
      pos ≤ p' ∧ p' ≤ e.length) ∧
    (∀ (e : List Char) (f pos : Nat) (v : ℚ) (p' : Nat),
      parsePrimary e f pos = .ok (v, p') → pos ≤ e.length →
      pos ≤ p' ∧ p' ≤ e.length) := by
  refine ⟨skipWhitespace_le, skipWhitespace_le_length, ?_, ?_, ?_, ?_, ?_, ?_⟩
  · intro e c pos b p' h hle
    rcases b with _ | _
    · have := matchChar_false h
      subst this
      exact ⟨skipWhitespace_le e pos, skipWhitespace_le_length e pos hle⟩
    · obtain ⟨m1, m2, _⟩ := matchChar_true h
      exact ⟨le_of_lt m1, m2⟩
  · intro e pos q p' h hle
    exact parseNumber_bounds hle h
  · intro e f pos v p' h hle
    exact (parseLevels_bounds e f).1 pos v p' h hle
  · intro e f pos v p' h hle
    exact (parseLevels_bounds e f).2.2.1 pos v p' h hle
  · intro e f pos v p' h hle
    exact (parseLevels_bounds e f).2.2.2.2.1 pos v p' h hle
  · intro e f pos v p' h hle
    exact (parseLevels_bounds e f).2.2.2.2.2 pos v p' h hle

/-- Witness for C9: the invariant applied to concrete runs — `match` on
`"2+3"` at position 1 and a full `parseExpression` of `"2"`. -/
theorem cursor_invariant_witness :
    ((1 : Nat) ≤ 2 ∧ (2 : Nat) ≤ 3) ∧ ((0 : Nat) ≤ 1 ∧ (1 : Nat) ≤ 1) := by
  constructor
  · exact cursor_invariant.2.2.1 ['2', '+', '3'] '+' 1 true 2 (by decide)
      (by decide)
  · exact cursor_invariant.2.2.2.2.1 ['2'] 10 0 2 1
      (by with_unfolding_all rfl) (by decide)

end Calculator

namespace Calculator

/-! ## Right-associativity of exponentiation, over arbitrary digit operands -/

set_option maxHeartbeats 1000000 in
/-- For any decimal digits `a`, `b`, `c`, the input `a^b^c` evaluates to
`pow(a, pow(b, c))`: after the base, the `'^'` triggers a recursive
`parseExponent` call that parses the whole remaining `b^c` as the exponent. -/
lemma eval_digit_caret_chain (a b c : Char)
    (ha : isdigitChar a = true) (hb : isdigitChar b = true)
    (hc : isdigitChar c = true) :
    evaluate (String.mk [a, '^', b, '^', c]) =
      .ok (powQ (digitVal a) (powQ (digitVal b) (digitVal c))) := by
  have hsa := digit_not_space ha
  have hsb := digit_not_space hb
  have hsc := digit_not_space hc
  have hP0 : ∀ f : Nat, parsePrimary [a, '^', b, '^', c] (f + 1) 0 =
      .ok (digitVal a, 1) := by
    intro f
    rw [parsePrimary]
    simp +decide [parseNumber, parseNumberLoop, parseNumberGo,
      matchChar, skipWhitespace, skipWhitespaceGo, stod, digitsToNat, digitVal,
      ha, hsa, digit_ne_plus ha, digit_ne_minus ha, digit_ne_lparen ha,
      digit_ne_dot ha]
  have hP2 : ∀ f : Nat, parsePrimary [a, '^', b, '^', c] (f + 1) 2 =
      .ok (digitVal b, 3) := by
    intro f
    rw [parsePrimary]
    simp +decide [parseNumber, parseNumberLoop, parseNumberGo,
      matchChar, skipWhitespace, skipWhitespaceGo, stod, digitsToNat, digitVal,
      hb, hsb, digit_ne_plus hb, digit_ne_minus hb, digit_ne_lparen hb,
      digit_ne_dot hb]
  have hP4 : ∀ f : Nat, parsePrimary [a, '^', b, '^', c] (f + 1) 4 =
      .ok (digitVal c, 5) := by
    intro f
    rw [parsePrimary]
    simp +decide [parseNumber, parseNumberLoop, parseNumberGo,
      matchChar, skipWhitespace, skipWhitespaceGo, stod, digitsToNat, digitVal,
      hc, hsc, digit_ne_plus hc, digit_ne_minus hc, digit_ne_lparen hc,
      digit_ne_dot hc]
  have hX4 : ∀ f : Nat, parseExponent [a, '^', b, '^', c] (f + 2) 4 =
      .ok (digitVal c, 5) := by
    intro f
    rw [parseExponent]
    simp +decide [hP4 f, matchChar, skipWhitespace, skipWhitespaceGo, hsc]
  have hX2 : ∀ f : Nat, parseExponent [a, '^', b, '^', c] (f + 3) 2 =
      .ok (powQ (digitVal b) (digitVal c), 5) := by
    intro f
    rw [parseExponent]
    simp +decide [hP2 (f + 1), hX4 f, matchChar, skipWhitespace,
      skipWhitespaceGo, hsb]
  have hX0 : ∀ f : Nat, parseExponent [a, '^', b, '^', c] (f + 4) 0 =
      .ok (powQ (digitVal a) (powQ (digitVal b) (digitVal c)), 5) := by
    intro f
    rw [parseExponent]
    simp +decide [hP0 (f + 2), hX2 f, matchChar, skipWhitespace,
      skipWhitespaceGo, hsa]
  have hTL5 : ∀ (g : Nat) (v : ℚ), parseTermLoop [a, '^', b, '^', c] (g + 1) v 5 =
      .ok (v, 5) := by
    intro g v
    rw [parseTermLoop]
    simp +decide [matchChar, skipWhitespace, skipWhitespaceGo]
  have hEL5 : ∀ (g : Nat) (v : ℚ),
      parseExpressionLoop [a, '^', b, '^', c] (g + 1) v 5 = .ok (v, 5) := by
    intro g v
    rw [parseExpressionLoop]
    simp +decide [matchChar, skipWhitespace, skipWhitespaceGo]
  have hT0 : ∀ f : Nat, parseTerm [a, '^', b, '^', c] (f + 5) 0 =
      .ok (powQ (digitVal a) (powQ (digitVal b) (digitVal c)), 5) := by
    intro f
    rw [parseTerm]
    simp [hX0 f, hTL5 (f + 3)]
  have hE0 : ∀ f : Nat, parseExpression [a, '^', b, '^', c] (f + 6) 0 =
      .ok (powQ (digitVal a) (powQ (digitVal b) (digitVal c)), 5) := by
    intro f
    rw [parseExpression]
    simp [hT0 f, hEL5 (f + 4)]
  have hlist : (String.mk [a, '^', b, '^', c]).toList = [a, '^', b, '^', c] := rfl
  simp +decide [evaluate, hlist, fuelBound, parse, hE0 24, skipWhitespace,
    skipWhitespaceGo]

end Calculator

namespace Calculator

/-! ## Claim theorems -/

/-- C4: exponentiation is right-associative.  After parsing the base, a `'^'`
makes `parseExponent` recurse into itself (not iterate) for the whole
exponent, so for all digits `a`, `b`, `c` the input `a^b^c` evaluates to
`pow(a, pow(b, c))`; in particular `evaluate "2^3^2" = 512` (i.e. `2^(3^2)`),
not `64` (which `(2^3)^2` would give). -/
theorem exponent_right_associative :
    (∀ a b c : Char, isdigitChar a = true → isdigitChar b = true →
      isdigitChar c = true →
      evaluate (String.mk [a, '^', b, '^', c]) =
        .ok (powQ (digitVal a) (powQ (digitVal b) (digitVal c)))) ∧
    evaluate "2^3^2" = .ok 512 ∧ evaluate "2^3^2" ≠ .ok 64 := by
  have h512 : evaluate "2^3^2" = .ok 512 := by with_unfolding_all rfl
  refine ⟨eval_digit_caret_chain, h512, ?_⟩
  rw [h512]
  simp only [ne_eq, Except.ok.injEq]
  norm_num

/-- Witness for C4: the digit-generic part applied to the digits of
`"2^3^2"`. -/
theorem exponent_right_associative_witness :
    evaluate (String.mk ['2', '^', '3', '^', '2']) =
      .ok (powQ (digitVal '2') (powQ (digitVal '3') (digitVal '2'))) :=
  exponent_right_associative.1 '2' '3' '2' (by decide) (by decide) (by decide)

/-- C5: `'^'` binds tighter than `'*'`/`'/'` but looser than unary sign: each
multiplicative operand is a whole exponent expression
(`evaluate "2*2^3" = 16`, not `64`), and the base of `'^'` is a primary, so a
preceding unary minus is applied before exponentiation
(`evaluate "-2^2" = pow(-2, 2) = 4`, not `-4`). -/
theorem exponent_precedence_vs_unary :
    evaluate "2*2^3" = .ok 16 ∧
    evaluate "-2^2" = .ok 4 ∧ evaluate "-2^2" ≠ .ok (-4) := by
  have h4 : evaluate "-2^2" = .ok 4 := by with_unfolding_all rfl
  refine ⟨by with_unfolding_all rfl, h4, ?_⟩
  rw [h4]
  simp only [ne_eq, Except.ok.injEq]
  norm_num

/-- C6: conventional precedence and iterative left-to-right accumulation for
same-precedence operators: `evaluate "2+3*4" = 14`, `evaluate "(2+3)*4" = 20`,
`evaluate "10-3-2" = 5`, `evaluate "8/4/2" = 1`. -/
theorem precedence_and_left_associativity :
    evaluate "2+3*4" = .ok 14 ∧ evaluate "(2+3)*4" = .ok 20 ∧
    evaluate "10-3-2" = .ok 5 ∧ evaluate "8/4/2" = .ok 1 :=
  ⟨by with_unfolding_all rfl, by with_unfolding_all rfl,
   by with_unfolding_all rfl, by with_unfolding_all rfl⟩

/-- C10: on the input `"."`, the number scan consumes the single dot (so the
zero-characters `expectedNumber` branch is not taken), `std::stod` then fails
on a digitless string, and `evaluate "."` fails with `numberConversionError`
reporting start position 0. -/
theorem lone_dot_conversion_error :
    parseNumberLoop ['.'] 0 = .ok 1 ∧ stod ['.'] = none ∧
    evaluate "." = .error (.numberConversionError 0) :=
  ⟨by decide, by decide, by decide⟩

end Calculator

namespace Calculator

/-- C1, counterexample to the claim as stated: for `evaluate "5/0"` the
`divisionByZero` error reports position 3 — the cursor position after the
divisor — not position 2, the index where the divisor token `'0'` begins. -/
theorem divisionByZero_position_cex :
    evaluate "5/0" = .error (.divisionByZero 3) ∧
    evaluate "5/0" ≠ .error (.divisionByZero 2) := by
  have h : evaluate "5/0" = .error (.divisionByZero 3) := by
    with_unfolding_all rfl
  exact ⟨h, by rw [h]; decide⟩

/-- C1 (amended): when the right operand of a division evaluates to exactly
0, evaluation fails with `divisionByZero`, and the reported position is the
cursor position immediately after the divisor (after the divisor's characters
and any whitespace skipped while checking it for a following `'^'`), not the
position where the divisor token began: in `parseTerm`'s loop the error
carries the cursor the divisor's `parseExponent` left behind, so
`evaluate "5/0"` reports position 3 and `evaluate "5/(1-1)"` position 7,
while a non-zero divisor divides normally (`evaluate "5/0.5" = 10`). -/
theorem divisionByZero_after_divisor :
    (∀ (e : List Char) (f : Nat) (value : ℚ) (pos p1 p2 : Nat) (rhs : ℚ)
      (p3 : Nat),
      matchChar e '*' (skipWhitespace e pos) = (false, p1) →
      matchChar e '/' p1 = (true, p2) →
      parseExponent e f p2 = .ok (rhs, p3) →
      rhs = 0 →
      parseTermLoop e (f + 1) value pos = .error (.divisionByZero p3)) ∧
    evaluate "5/0" = .error (.divisionByZero 3) ∧
    evaluate "5/(1-1)" = .error (.divisionByZero 7) ∧
    evaluate "5/0.5" = .ok 10 := by
  refine ⟨?_, ?_, ?_, ?_⟩
  · intro e f value pos p1 p2 rhs p3 h1 h2 h3 h4
    rw [parseTermLoop]
    simp [h1, h2, h3, h4]
  · with_unfolding_all rfl
  · with_unfolding_all rfl
  · with_unfolding_all rfl

/-- Witness for C1: the loop-level statement applied to the concrete division
`"5/0"` entered with accumulated value 5 at position 1. -/
theorem divisionByZero_after_divisor_witness :
    parseTermLoop ['5', '/', '0'] 7 5 1 = .error (.divisionByZero 3) :=
  divisionByZero_after_divisor.1 ['5', '/', '0'] 6 5 1 1 2 0 3
    (by decide) (by decide) (by with_unfolding_all rfl) rfl

/-- C2, counterexample to the claim as stated: `match` does not leave the
cursor unchanged on failure — it first skips whitespace.  On source
`" a"` at position 0 expecting `'x'`, it reports `false` with the cursor
moved from 0 to 1. -/
theorem matchChar_position_cex :
    matchChar [' ', 'a'] 'x' 0 = (false, 1) ∧
    matchChar [' ', 'a'] 'x' 0 ≠ (false, 0) := by
  constructor <;> decide

/-- C2 (amended): when the current significant character (the first one at or
after the cursor that is not whitespace) differs from the expected character,
`match` reports `false` and leaves the cursor exactly at that significant
character's position — it advances only over the whitespace it skipped, so
subsequent alternatives still see the same significant character. -/
theorem matchChar_false_frame (e : List Char) (expected : Char) (pos : Nat)
    (h : ∀ hl : skipWhitespace e pos < e.length,
      e[skipWhitespace e pos] ≠ expected) :
    matchChar e expected pos = (false, skipWhitespace e pos) ∧
    currentChar e (matchChar e expected pos).2 =
      currentChar e (skipWhitespace e pos) := by
  have hm := matchChar_of_ne h
  exact ⟨hm, by rw [hm]⟩

/-- Witness for C2: the amended statement at source `" a"`, position 0,
expected character `'x'`. -/
theorem matchChar_false_frame_witness :
    matchChar [' ', 'a'] 'x' 0 = (false, skipWhitespace [' ', 'a'] 0) ∧
    currentChar [' ', 'a'] (matchChar [' ', 'a'] 'x' 0).2 =
      currentChar [' ', 'a'] (skipWhitespace [' ', 'a'] 0) :=
  matchChar_false_frame [' ', 'a'] 'x' 0 (by intro hl; simp +decide [skipWhitespace, skipWhitespaceGo])

/-- C3, counterexample to the claim as stated: an embedded newline does not
cause a parse failure — `evaluate "2\n+3"` succeeds with value 5. -/
theorem newline_skipped_cex : evaluate "2\n+3" = .ok 5 := by
  with_unfolding_all rfl

/-- C3 (amended): whitespace skipping advances over every character
`std::isspace` accepts in the C locale — space, tab, newline, vertical tab,
form feed and carriage return — so an embedded newline is skipped like a
space rather than causing a parse failure: `evaluate "2\n+3" = 5`, and the
other whitespace-class characters are skipped the same way. -/
theorem whitespace_class_skipped :
    skipWhitespace [' ', '\t', '\n', '\x0b', '\x0c', '\r', '1'] 0 = 6 ∧
    evaluate "2\n+3" = .ok 5 ∧
    evaluate " \t2\x0b+\x0c3\r" = .ok 5 :=
  ⟨by decide, by with_unfolding_all rfl, by with_unfolding_all rfl⟩

/-- C7: after parsing a full expression and skipping trailing whitespace,
`parse` requires the cursor to be at end-of-input; if input remains it fails
with `unexpectedToken` carrying the offending position and character.  In
particular `evaluate "2+3)"` fails with `unexpectedToken` at position 3 on
`')'`, and `evaluate "2 3"` at position 2 on `'3'`, rather than returning the
value of the parsed prefix. -/
theorem trailing_input_rejected :
    (∀ (e : List Char) (fuel : Nat) (v : ℚ) (p : Nat),
      parseExpression e fuel 0 = .ok (v, p) →
      skipWhitespace e p ≠ e.length →
      parse e fuel = .error
        (.unexpectedToken (skipWhitespace e p)
          (currentChar e (skipWhitespace e p)))) ∧
    evaluate "2+3)" = .error (.unexpectedToken 3 ')') ∧
    evaluate "2 3" = .error (.unexpectedToken 2 '3') := by
  refine ⟨?_, ?_, ?_⟩
  · intro e fuel v p h hne
    rw [parse, h]
    dsimp only
    rw [if_pos hne]
  · decide
  · decide

/-- Witness for C7: the end-of-input requirement applied to the concrete
parse of `"2 3"`, whose expression parse stops at position 2. -/
theorem trailing_input_rejected_witness :
    parse ['2', ' ', '3'] 20 = .error
      (.unexpectedToken (skipWhitespace ['2', ' ', '3'] 2)
        (currentChar ['2', ' ', '3'] (skipWhitespace ['2', ' ', '3'] 2))) :=
  trailing_input_rejected.1 ['2', ' ', '3'] 20 2 2
    (by with_unfolding_all rfl) (by decide)

end Calculator
